import Mathlib

/-!
Verification of the identity-matching and temporal-versioning engine of the
groups_management repository (apps/persons/services.py, class PersonService).

The Django ORM calls are shallowly embedded: the database is a `Store` holding
a list of current-table rows (`Person`), history rows (`PersonHistory`) and the
autoincrement counters; every query becomes a pure list computation.  Field
nullability follows the repository data model: `middle_name`, `phone` and
`email` are nullable (Option String), the other attribute columns are NOT NULL
plain strings.  Timestamps and surrogate keys are modelled as naturals.
-/

/-- An incoming attribute snapshot (the `person_data` dict of services.py).
`middle_name`, `phone`, `email` model `person_data.get(...)`: `none` covers a
missing key and an explicit Python `None` alike; the remaining keys are read
with mandatory indexing (`person_data[...]`) in the source, so they are plain
strings here. -/
structure Snapshot where
  last_name : String
  first_name : String
  middle_name : Option String
  birth_date : String
  gender : String
  address : String
  phone : Option String
  email : Option String
deriving DecidableEq

/-- A row of the current table (model `Person`): the attribute columns plus
surrogate key `id`, group foreign key `group_id`, change-set foreign key
`change`, creation timestamp and the `is_current` flag. -/
structure Person where
  id : Nat
  group_id : Nat
  change : Nat
  last_name : String
  first_name : String
  middle_name : Option String
  birth_date : String
  gender : String
  address : String
  phone : Option String
  email : Option String
  created_at : Nat
  is_current : Bool
deriving DecidableEq

/-- A row of the history table (model `PersonHistory`): copied attribute
columns plus the validity interval `[valid_from, valid_to)`. -/
structure PersonHistory where
  group_id : Nat
  change : Nat
  last_name : String
  first_name : String
  middle_name : Option String
  birth_date : String
  gender : String
  address : String
  phone : Option String
  email : Option String
  valid_from : Nat
  valid_to : Nat
deriving DecidableEq

/-- The database state: existing group ids, the two tables, and the
autoincrement counters for groups, persons and change sets. -/
structure Store where
  groups : List Nat
  persons : List Person
  history : List PersonHistory
  next_group_id : Nat
  next_person_id : Nat
  next_change_id : Nat

/-- Python truthiness of an optional string: `if phone:` / `if email:` in
find_matching_group is false for a missing key, `None`, and the empty
string. -/
def optTruthy : Option String → Bool
  | none => false
  | some s => s != ""

/-- Lines 34-38 of services.py: if the incoming `middle_name` is `None` the
query filters `middle_name__isnull=True`, otherwise it filters string
equality. -/
def middleOk (d : Snapshot) (p : Person) : Bool :=
  match d.middle_name with
  | none => p.middle_name.isNone
  | some m => p.middle_name == some m

/-- Lines 40-41 of services.py: only for gender `"М"` (male) the query also
filters `last_name` equality. -/
def surnameOk (d : Snapshot) (p : Person) : Bool :=
  if d.gender == "М" then p.last_name == d.last_name else true

/-- Lines 43-49 of services.py: the contact disjunction
`Q(address=...) | Q(phone=...) | Q(email=...)`, where the phone and email
disjuncts are only added when the incoming value is truthy. -/
def contactOk (d : Snapshot) (p : Person) : Bool :=
  p.address == d.address
    || (optTruthy d.phone && p.phone == d.phone)
    || (optTruthy d.email && p.email == d.email)

/-- The complete row predicate of the `find_matching_group` query chain
(lines 28-52): is_current, gender and first_name equality, the middle-name
rule, the male-only surname rule, and the contact disjunction. -/
def matchesSnapshot (d : Snapshot) (p : Person) : Bool :=
  p.is_current && p.gender == d.gender && p.first_name == d.first_name
    && middleOk d p && surnameOk d p && contactOk d p

/-- Minimum of a list of naturals as an Option; embeds
`.order_by(group_id).values_list(group_id, flat=True).first()`. -/
def minGroupId : List Nat → Option Nat
  | [] => none
  | x :: xs =>
    match minGroupId xs with
    | none => some x
    | some y => some (min x y)

/-- `PersonService.find_matching_group` (lines 17-57): the smallest `group_id`
among current rows satisfying the predicate, or `none`. -/
def find_matching_group (persons : List Person) (d : Snapshot) : Option Nat :=
  minGroupId ((persons.filter (fun p => matchesSnapshot d p)).map (fun p => p.group_id))

/-- First element of a list under descending order by a natural-number key
(ties keep the earlier element); embeds `.order_by(-key).first()`. -/
def maxByKey (key : α → Nat) : List α → Option α
  | [] => none
  | x :: xs =>
    match maxByKey key xs with
    | none => some x
    | some y => if key x < key y then some y else some x

/-- The change set used by `create_person` (lines 63-67): the supplied one, or
a freshly created row (modelled by its would-be autoincrement id). -/
def chosenChange (s : Store) (cs : Option Nat) : Nat :=
  cs.getD s.next_change_id

def newNextChangeId (s : Store) (cs : Option Nat) : Nat :=
  if cs.isSome then s.next_change_id else s.next_change_id + 1

/-- Line 71 of services.py, `if group_id:` — Python truthiness of the resolved
id (an id of 0 would count as no match; Django ids start at 1). -/
def groupMatched (s : Store) (d : Snapshot) : Bool :=
  match find_matching_group s.persons d with
  | some g => g != 0
  | none => false

/-- Lines 69-74: the target group id — the resolved group when truthy,
otherwise the id of a freshly created `PersonGroup` row. -/
def chosenGroupId (s : Store) (d : Snapshot) : Nat :=
  match find_matching_group s.persons d with
  | some g => if g != 0 then g else s.next_group_id
  | none => s.next_group_id

def newGroups (s : Store) (d : Snapshot) : List Nat :=
  if groupMatched s d then s.groups else s.groups ++ [s.next_group_id]

def newNextGroupId (s : Store) (d : Snapshot) : Nat :=
  if groupMatched s d then s.next_group_id else s.next_group_id + 1

/-- Lines 77-84: the freshly inserted current row, carrying the snapshot's
attributes, `created_at = now`, `is_current = True`. -/
def newPerson (s : Store) (d : Snapshot) (cs : Option Nat) (now : Nat) : Person :=
  { id := s.next_person_id,
    group_id := chosenGroupId s d,
    change := chosenChange s cs,
    last_name := d.last_name,
    first_name := d.first_name,
    middle_name := d.middle_name,
    birth_date := d.birth_date,
    gender := d.gender,
    address := d.address,
    phone := d.phone,
    email := d.email,
    created_at := now,
    is_current := true }

/-- Lines 87-93: the previous current row of the target group — the query runs
after the insert, so the new row is present but excluded by `id`; the result
is the latest `created_at` among group rows with `is_current=True` other than
the new row. -/
def prevOf (s : Store) (d : Snapshot) (cs : Option Nat) (now : Nat) : Option Person :=
  let person := newPerson s d cs now
  maxByKey Person.created_at
    ((person :: s.persons).filter
      (fun p => p.group_id == person.group_id && p.is_current && p.id != person.id))

/-- `PersonService.create_person` (lines 59-114): resolve or create the group,
insert the new current row, and if a previous current row exists, insert a
history row copying its attributes with `valid_from = prev.created_at`,
`valid_to = now` (the history `change` is `person.change or prev.change`;
the new row's change set is always present, so it is `person.change`), then
flip the previous row's `is_current` to false.  Run as one transaction; the
committed state and the returned row are the result. -/
def create_person (s : Store) (d : Snapshot) (cs : Option Nat) (now : Nat) :
    Store × Person :=
  let person := newPerson s d cs now
  match prevOf s d cs now with
  | some pv =>
      ({ groups := newGroups s d,
         persons := (person :: s.persons).map
           (fun q => if q.id == pv.id then { q with is_current := false } else q),
         history :=
           { group_id := chosenGroupId s d,
             change := person.change,
             last_name := pv.last_name,
             first_name := pv.first_name,
             middle_name := pv.middle_name,
             birth_date := pv.birth_date,
             gender := pv.gender,
             address := pv.address,
             phone := pv.phone,
             email := pv.email,
             valid_from := pv.created_at,
             valid_to := now } :: s.history,
         next_group_id := newNextGroupId s d,
         next_person_id := s.next_person_id + 1,
         next_change_id := newNextChangeId s cs }, person)
  | none =>
      ({ groups := newGroups s d,
         persons := person :: s.persons,
         history := s.history,
         next_group_id := newNextGroupId s d,
         next_person_id := s.next_person_id + 1,
         next_change_id := newNextChangeId s cs }, person)

/-- The attribute view returned by the read endpoints (the dict literals of
services.py). -/
structure PersonView where
  group_id : Nat
  last_name : String
  first_name : String
  middle_name : Option String
  birth_date : String
  gender : String
  address : String
  phone : Option String
  email : Option String
deriving DecidableEq

def personView (p : Person) : PersonView :=
  { group_id := p.group_id, last_name := p.last_name, first_name := p.first_name,
    middle_name := p.middle_name, birth_date := p.birth_date, gender := p.gender,
    address := p.address, phone := p.phone, email := p.email }

def historyView (h : PersonHistory) : PersonView :=
  { group_id := h.group_id, last_name := h.last_name, first_name := h.first_name,
    middle_name := h.middle_name, birth_date := h.birth_date, gender := h.gender,
    address := h.address, phone := h.phone, email := h.email }

/-- `PersonService.get_person_as_of` (lines 154-196): first the latest current
row of the group with `created_at ≤ timestamp`; else the history row of the
group whose interval `[valid_from, valid_to)` contains the timestamp, latest
`valid_from` first; else `none`. -/
def get_person_as_of (s : Store) (group_id : Nat) (ts : Nat) : Option PersonView :=
  match maxByKey Person.created_at
      (s.persons.filter
        (fun p => p.group_id == group_id && p.is_current && decide (p.created_at ≤ ts))) with
  | some c => some (personView c)
  | none =>
    match maxByKey PersonHistory.valid_from
        (s.history.filter
          (fun h => h.group_id == group_id && decide (h.valid_from ≤ ts) && decide (ts < h.valid_to))) with
    | some h => some (historyView h)
    | none => none

/-- The empty database (fresh autoincrement counters start at 1). -/
def emptyStore : Store :=
  { groups := [], persons := [], history := [], next_group_id := 1,
    next_person_id := 1, next_change_id := 1 }

/-- One Apply call: the snapshot, the optional supplied change set, and the
`timezone.now()` value of the call. -/
structure ApplyCall where
  data : Snapshot
  change : Option Nat
  now : Nat

/-- A completed sequence of Apply calls against an initially empty store. -/
def applyAll (ops : List ApplyCall) : Store :=
  ops.foldl (fun s op => (create_person s op.data op.change op.now).1) emptyStore

/-- No two distinct rows of the same group are both current. -/
def NoTwoCurrent (p q : Person) : Prop :=
  ¬(p.is_current = true ∧ q.is_current = true ∧ p.group_id = q.group_id)

instance : DecidableRel NoTwoCurrent := fun p q => by
  unfold NoTwoCurrent
  infer_instance

/-- The at-most-one-current-per-group invariant over the current table. -/
abbrev AtMostOneCurrent (l : List Person) : Prop := l.Pairwise NoTwoCurrent

/-- Scenario snapshot A of the spec: female, no middle name, no phone/email. -/
def snapAnna : Snapshot :=
  { last_name := "Ivanova", first_name := "Anna", middle_name := none,
    birth_date := "1990-01-01", gender := "Ж", address := "123 Main",
    phone := none, email := none }

/-- Scenario snapshot B: same person, surname changed. -/
def snapPetrova : Snapshot := { snapAnna with last_name := "Petrova" }

def storeA : Store := (create_person emptyStore snapAnna none 1).1

def storeB : Store := (create_person storeA snapPetrova none 2).1

-- scratch sanity checks

def personAnna : Person :=
  { id := 1, group_id := 1, change := 1, last_name := "Ivanova",
    first_name := "Anna", middle_name := none, birth_date := "1990-01-01",
    gender := "Ж", address := "123 Main", phone := none, email := none,
    created_at := 1, is_current := true }

def personMale : Person :=
  { id := 2, group_id := 2, change := 2, last_name := "Sidorov",
    first_name := "Ivan", middle_name := some "Petrovich",
    birth_date := "1980-01-01", gender := "М", address := "99 Oak",
    phone := some "555", email := none, created_at := 1, is_current := true }

def snapMale : Snapshot :=
  { last_name := "Sidorov", first_name := "Ivan",
    middle_name := some "Petrovich", birth_date := "1980-01-01",
    gender := "М", address := "99 Oak", phone := some "555", email := none }

/-- Snapshot matching `personMale` only through the address channel: phone and
email both present but different. -/
def snapAddrOnly : Snapshot :=
  { snapMale with phone := some "999", email := some "x@y" }

/-- Snapshot matching `personMale` only through the phone channel: the address
differs. -/
def snapPhoneOnly : Snapshot :=
  { snapMale with address := "13 Elm" }

/-- A second female current row that matches `snapAnna` apart from the surname
(surname not required for non-male gender), in a higher-numbered group. -/
def personAnnaG2 : Person :=
  { personAnna with id := 2, group_id := 2, last_name := "Smirnova", created_at := 2 }

/-- Variants of `snapAnna`/`personAnna` with an explicit empty-string middle
name. -/
def snapAnnaEmptyMid : Snapshot := { snapAnna with middle_name := some "" }

def personAnnaEmptyMid : Person := { personAnna with middle_name := some "" }

/-- The current Petrova row of the Anna/Petrova scenario after two Apply
calls. -/
def personPetrova : Person :=
  { personAnna with id := 2, change := 2, last_name := "Petrova", created_at := 2 }

/-- The history row retiring the Anna state, valid on `[1, 2)`. -/
def histAnna : PersonHistory :=
  { group_id := 1, change := 2, last_name := "Ivanova", first_name := "Anna",
    middle_name := none, birth_date := "1990-01-01", gender := "Ж",
    address := "123 Main", phone := none, email := none,
    valid_from := 1, valid_to := 2 }

theorem minGroupId_eq_none {l : List Nat} : minGroupId l = none ↔ l = [] := by
  cases l with
  | nil => simp [minGroupId]
  | cons x xs =>
    simp only [minGroupId]
    cases h : minGroupId xs <;> simp

theorem minGroupId_spec {l : List Nat} {g : Nat} (h : minGroupId l = some g) :
    g ∈ l ∧ ∀ x ∈ l, g ≤ x := by
  induction l generalizing g with
  | nil => simp [minGroupId] at h
  | cons a t ih =>
    simp only [minGroupId] at h
    cases ht : minGroupId t with
    | none =>
      rw [ht] at h
      have hte : t = [] := minGroupId_eq_none.mp ht
      subst hte
      simp only [Option.some.injEq] at h
      subst h
      simp
    | some y =>
      rw [ht] at h
      simp only [Option.some.injEq] at h
      subst h
      obtain ⟨hmem, hbound⟩ := ih ht
      constructor
      · rcases le_total a y with hay | hya
        · simp [min_eq_left hay]
        · right
          rw [min_eq_right hya]
          exact hmem
      · intro x hx
        rcases List.mem_cons.mp hx with rfl | hxt
        · exact min_le_left _ _
        · exact le_trans (min_le_right _ _) (hbound x hxt)

theorem minGroupId_isSome {l : List Nat} (h : l ≠ []) : (minGroupId l).isSome := by
  cases hl : minGroupId l with
  | none => exact absurd (minGroupId_eq_none.mp hl) h
  | some y => rfl

theorem maxByKey_eq_none {key : α → Nat} {l : List α} :
    maxByKey key l = none ↔ l = [] := by
  cases l with
  | nil => simp [maxByKey]
  | cons x xs =>
    simp only [maxByKey]
    cases h : maxByKey key xs with
    | none => simp
    | some y =>
      by_cases hk : key x < key y <;> simp [hk]

theorem maxByKey_mem {key : α → Nat} {l : List α} {x : α}
    (h : maxByKey key l = some x) : x ∈ l := by
  induction l generalizing x with
  | nil => simp [maxByKey] at h
  | cons a t ih =>
    simp only [maxByKey] at h
    cases ht : maxByKey key t with
    | none =>
      rw [ht] at h
      simp only [Option.some.injEq] at h
      subst h
      simp
    | some y =>
      rw [ht] at h
      by_cases hk : key a < key y
      · simp only [hk, if_pos] at h
        simp only [Option.some.injEq] at h
        subst h
        exact List.mem_cons_of_mem a (ih ht)
      · simp only [hk, if_neg, not_false_iff] at h
        simp only [Option.some.injEq] at h
        subst h
        simp

theorem maxByKey_isSome {key : α → Nat} {l : List α} (h : l ≠ []) :
    (maxByKey key l).isSome := by
  cases hl : maxByKey key l with
  | none => exact absurd (maxByKey_eq_none.mp hl) h
  | some y => rfl

theorem maxByKey_eq_of_all_eq {key : α → Nat} {l : List α} {x : α}
    (hx : x ∈ l) (hall : ∀ y ∈ l, y = x) : maxByKey key l = some x := by
  have hne : l ≠ [] := by
    intro hnil
    subst hnil
    simp at hx
  cases hl : maxByKey key l with
  | none => exact absurd (maxByKey_eq_none.mp hl) hne
  | some y => rw [hall y (maxByKey_mem hl)]

theorem maxByKey_eq_of_strict_max {key : α → Nat} {l : List α} {x : α}
    (hx : x ∈ l) (hmax : ∀ y ∈ l, y ≠ x → key y < key x) :
    maxByKey key l = some x := by
  induction l with
  | nil => simp at hx
  | cons a t ih =>
    simp only [maxByKey]
    rcases List.mem_cons.mp hx with rfl | hxt
    · cases ht : maxByKey key t with
      | none => rfl
      | some y =>
        have hyt : y ∈ t := maxByKey_mem ht
        by_cases hyx : y = x
        · subst hyx
          simp [lt_irrefl]
        · have : key y < key x := hmax y (List.mem_cons_of_mem x hyt) hyx
          simp [Nat.not_lt.mpr (le_of_lt this)]
    · by_cases hax : a = x
      · subst hax
        cases ht : maxByKey key t with
        | none => rfl
        | some y =>
          have hyt : y ∈ t := maxByKey_mem ht
          by_cases hyx : y = a
          · subst hyx
            simp [lt_irrefl]
          · have : key y < key a := hmax y (List.mem_cons_of_mem a hyt) hyx
            simp [Nat.not_lt.mpr (le_of_lt this)]
      · have hrec := ih hxt (fun y hy hyx => hmax y (List.mem_cons_of_mem a hy) hyx)
        rw [hrec]
        have hkax : key a < key x := hmax a (List.mem_cons_self a t) hax
        simp [hkax]

theorem middleOk_eq_beq (d : Snapshot) (p : Person) :
    middleOk d p = (p.middle_name == d.middle_name) := by
  rcases hd : d.middle_name with _ | m <;> rcases hp : p.middle_name with _ | s <;>
    simp [middleOk, hd, hp]

theorem matchesSnapshot_middle {d : Snapshot} {p : Person}
    (h : matchesSnapshot d p = true) : p.middle_name = d.middle_name := by
  simp only [matchesSnapshot, Bool.and_eq_true] at h
  have hmid := h.1.1.2
  rw [middleOk_eq_beq] at hmid
  exact eq_of_beq hmid

/-- Claim C3: for a male-gender snapshot a match forces last_name equality,
while for any non-male gender the matching predicate does not depend on the
snapshot's last_name at all. -/
theorem c3_surname_rule :
    (∀ (d : Snapshot) (p : Person), d.gender = "М" → matchesSnapshot d p = true →
      p.last_name = d.last_name) ∧
    (∀ (d : Snapshot) (p : Person) (ln : String), d.gender ≠ "М" →
      matchesSnapshot { d with last_name := ln } p = matchesSnapshot d p) := by
  constructor
  · intro d p hg hm
    simp only [matchesSnapshot, Bool.and_eq_true] at hm
    have hs := hm.1.2
    rw [surnameOk, hg] at hs
    simpa using hs
  · intro d p ln hg
    have hg2 : (d.gender == "М") = false := by simpa using hg
    simp [matchesSnapshot, surnameOk, middleOk, contactOk, hg2]

/-- Concrete instantiation of the surname rule. -/
theorem c3_surname_rule_witness :
    personMale.last_name = snapMale.last_name ∧
    matchesSnapshot { snapAnna with last_name := "Petrova" } personAnna =
      matchesSnapshot snapAnna personAnna :=
  ⟨c3_surname_rule.1 snapMale personMale (by decide) (by decide),
   c3_surname_rule.2 snapAnna personAnna "Petrova" (by decide)⟩

/-- Claim C4: the contact condition of the matching predicate is the
disjunction address-equality OR (truthy incoming phone AND phone-equality) OR
(truthy incoming email AND email-equality): every match satisfies it, and
together with the other predicate conditions any single disjunct suffices. -/
theorem c4_contact_disjunction :
    (∀ (d : Snapshot) (p : Person), matchesSnapshot d p = true →
      p.address = d.address ∨ (optTruthy d.phone = true ∧ p.phone = d.phone) ∨
        (optTruthy d.email = true ∧ p.email = d.email)) ∧
    (∀ (d : Snapshot) (p : Person),
      p.is_current = true → p.gender = d.gender → p.first_name = d.first_name →
      middleOk d p = true → surnameOk d p = true →
      (p.address = d.address ∨ (optTruthy d.phone = true ∧ p.phone = d.phone) ∨
        (optTruthy d.email = true ∧ p.email = d.email)) →
      matchesSnapshot d p = true) := by
  constructor
  · intro d p hm
    simp only [matchesSnapshot, Bool.and_eq_true] at hm
    have hc := hm.2
    simp only [contactOk, Bool.or_eq_true, Bool.and_eq_true, beq_iff_eq] at hc
    exact or_assoc.mp hc
  · intro d p h1 h2 h3 h4 h5 h6
    simp only [matchesSnapshot, Bool.and_eq_true]
    refine ⟨⟨⟨⟨⟨h1, by simp [h2]⟩, by simp [h3]⟩, h4⟩, h5⟩, ?_⟩
    simp only [contactOk, Bool.or_eq_true, Bool.and_eq_true, beq_iff_eq]
    exact or_assoc.mpr h6

/-- Concrete instantiation of the contact disjunction: matching address with
mismatched phone/email still matches, and a mismatched address with matching
non-empty phone still matches. -/
theorem c4_contact_disjunction_witness :
    matchesSnapshot snapAddrOnly personMale = true ∧
    matchesSnapshot snapPhoneOnly personMale = true ∧
    (personMale.address = snapPhoneOnly.address ∨
      (optTruthy snapPhoneOnly.phone = true ∧ personMale.phone = snapPhoneOnly.phone) ∨
      (optTruthy snapPhoneOnly.email = true ∧ personMale.email = snapPhoneOnly.email)) :=
  have h2 : matchesSnapshot snapPhoneOnly personMale = true :=
    c4_contact_disjunction.2 snapPhoneOnly personMale (by decide) (by decide)
      (by decide) (by decide) (by decide) (Or.inr (Or.inl ⟨by decide, by decide⟩))
  ⟨c4_contact_disjunction.2 snapAddrOnly personMale (by decide) (by decide)
      (by decide) (by decide) (by decide) (Or.inl (by decide)),
   h2, c4_contact_disjunction.1 snapPhoneOnly personMale h2⟩

/-- Claim C6: when `find_matching_group` returns a group id, that id belongs
to a matching current row and is a lower bound of every matching row's group
id — i.e. the numerically smallest matching group identifier. -/
theorem c6_smallest_group (persons : List Person) (d : Snapshot) (g : Nat)
    (h : find_matching_group persons d = some g) :
    (∃ p ∈ persons, matchesSnapshot d p = true ∧ p.group_id = g) ∧
    (∀ p ∈ persons, matchesSnapshot d p = true → g ≤ p.group_id) := by
  rw [find_matching_group] at h
  obtain ⟨hmem, hbound⟩ := minGroupId_spec h
  constructor
  · obtain ⟨p, hp, hpg⟩ := List.mem_map.mp hmem
    obtain ⟨hpmem, hpmatch⟩ := List.mem_filter.mp hp
    exact ⟨p, hpmem, hpmatch, hpg⟩
  · intro p hp hm
    exact hbound p.group_id
      (List.mem_map_of_mem _ (List.mem_filter.mpr ⟨hp, hm⟩))

/-- Concrete instantiation of the tie-break: with matching rows in groups 1
and 2, the resolver picks group 1. -/
theorem c6_smallest_group_witness :
    (∃ p ∈ [personAnnaG2, personAnna],
      matchesSnapshot snapAnna p = true ∧ p.group_id = 1) ∧
    (∀ p ∈ [personAnnaG2, personAnna],
      matchesSnapshot snapAnna p = true → 1 ≤ p.group_id) :=
  c6_smallest_group [personAnnaG2, personAnna] snapAnna 1 (by decide)

/-- Claim C7: middle-name equality in the matching predicate is exact
Option-equality — both-absent matches, one-absent-one-present does not, and a
match always forces the stored and incoming middle names to coincide. -/
theorem c7_middle_name_rule :
    (∀ (d : Snapshot) (p : Person), matchesSnapshot d p = true →
      p.middle_name = d.middle_name) ∧
    (∀ (d : Snapshot) (p : Person),
      middleOk d p = (p.middle_name == d.middle_name)) :=
  ⟨fun _ _ h => matchesSnapshot_middle h, middleOk_eq_beq⟩

/-- Concrete instantiation of the middle-name rule. -/
theorem c7_middle_name_rule_witness :
    personMale.middle_name = snapMale.middle_name ∧
    middleOk snapAnna personAnna = (personAnna.middle_name == snapAnna.middle_name) :=
  ⟨c7_middle_name_rule.1 snapMale personMale (by decide),
   c7_middle_name_rule.2 snapAnna personAnna⟩

/-- Claim C10: an incoming empty-string middle name is not treated as absent —
it never matches a stored NULL middle name and a match forces the stored
middle name to be the empty string; an incoming absent middle name matches
only stored NULL middle names. -/
theorem c10_empty_middle_not_absent :
    (∀ (d : Snapshot) (p : Person), d.middle_name = some "" →
      p.middle_name = none → matchesSnapshot d p = false) ∧
    (∀ (d : Snapshot) (p : Person), d.middle_name = some "" →
      matchesSnapshot d p = true → p.middle_name = some "") ∧
    (∀ (d : Snapshot) (p : Person), d.middle_name = none →
      matchesSnapshot d p = true → p.middle_name = none) := by
  refine ⟨?_, ?_, ?_⟩
  · intro d p hd hp
    simp [matchesSnapshot, middleOk, hd, hp]
  · intro d p hd hm
    rw [matchesSnapshot_middle hm, hd]
  · intro d p hd hm
    rw [matchesSnapshot_middle hm, hd]

/-- Concrete instantiation of the empty-string middle-name behaviour. -/
theorem c10_empty_middle_not_absent_witness :
    matchesSnapshot snapAnnaEmptyMid personAnna = false ∧
    personAnnaEmptyMid.middle_name = some "" ∧
    personAnna.middle_name = none :=
  ⟨c10_empty_middle_not_absent.1 snapAnnaEmptyMid personAnna (by decide) (by decide),
   c10_empty_middle_not_absent.2.1 snapAnnaEmptyMid personAnnaEmptyMid (by decide) (by decide),
   c10_empty_middle_not_absent.2.2 snapAnna personAnna (by decide) (by decide)⟩

theorem create_person_snd (s : Store) (d : Snapshot) (cs : Option Nat) (now : Nat) :
    (create_person s d cs now).2 = newPerson s d cs now := by
  cases h : prevOf s d cs now <;> simp [create_person, h]

theorem create_person_persons_none {s : Store} {d : Snapshot} {cs : Option Nat} {now : Nat}
    (h : prevOf s d cs now = none) :
    (create_person s d cs now).1.persons = newPerson s d cs now :: s.persons := by
  simp [create_person, h]

theorem create_person_persons_some {s : Store} {d : Snapshot} {cs : Option Nat} {now : Nat}
    {pv : Person} (h : prevOf s d cs now = some pv) :
    (create_person s d cs now).1.persons =
      (newPerson s d cs now :: s.persons).map
        (fun q => if q.id == pv.id then { q with is_current := false } else q) := by
  simp [create_person, h]

theorem create_person_history_none {s : Store} {d : Snapshot} {cs : Option Nat} {now : Nat}
    (h : prevOf s d cs now = none) :
    (create_person s d cs now).1.history = s.history := by
  simp [create_person, h]

theorem create_person_history_some {s : Store} {d : Snapshot} {cs : Option Nat} {now : Nat}
    {pv : Person} (h : prevOf s d cs now = some pv) :
    (create_person s d cs now).1.history =
      { group_id := chosenGroupId s d, change := chosenChange s cs,
        last_name := pv.last_name, first_name := pv.first_name,
        middle_name := pv.middle_name, birth_date := pv.birth_date,
        gender := pv.gender, address := pv.address, phone := pv.phone,
        email := pv.email, valid_from := pv.created_at,
        valid_to := now } :: s.history := by
  simp [create_person, h, newPerson, chosenChange]

theorem create_person_groups (s : Store) (d : Snapshot) (cs : Option Nat) (now : Nat) :
    (create_person s d cs now).1.groups = newGroups s d := by
  cases h : prevOf s d cs now <;> simp [create_person, h]

theorem create_person_next_person_id (s : Store) (d : Snapshot) (cs : Option Nat) (now : Nat) :
    (create_person s d cs now).1.next_person_id = s.next_person_id + 1 := by
  cases h : prevOf s d cs now <;> simp [create_person, h]

/-- Claim C2: whenever `create_person` finds (and hence retires) a previous
current row, it prepends exactly one history row copying that row's attribute
fields, with `valid_from` the retired row's `created_at` and `valid_to` the
new row's `created_at`; with no previous current row, the history table is
unchanged. -/
theorem c2_history_on_retire (s : Store) (d : Snapshot) (cs : Option Nat) (now : Nat) :
    (∀ pv : Person, prevOf s d cs now = some pv →
      ∃ hrec : PersonHistory,
        (create_person s d cs now).1.history = hrec :: s.history ∧
        hrec.last_name = pv.last_name ∧
        hrec.first_name = pv.first_name ∧
        hrec.middle_name = pv.middle_name ∧
        hrec.birth_date = pv.birth_date ∧
        hrec.gender = pv.gender ∧
        hrec.address = pv.address ∧
        hrec.phone = pv.phone ∧
        hrec.email = pv.email ∧
        hrec.valid_from = pv.created_at ∧
        hrec.valid_to = (create_person s d cs now).2.created_at) ∧
    (prevOf s d cs now = none → (create_person s d cs now).1.history = s.history) := by
  constructor
  · intro pv hpv
    refine ⟨_, create_person_history_some hpv,
      rfl, rfl, rfl, rfl, rfl, rfl, rfl, rfl, rfl, ?_⟩
    rw [create_person_snd]
    rfl
  · exact create_person_history_none

/-- Concrete instantiation of the history rule: the second Apply of the
Anna/Petrova scenario retires the Anna row into exactly one history row with
interval `[1, 2)`. -/
theorem c2_history_on_retire_witness :
    (∃ hrec : PersonHistory,
      (create_person storeA snapPetrova none 2).1.history = hrec :: storeA.history ∧
      hrec.last_name = personAnna.last_name ∧
      hrec.first_name = personAnna.first_name ∧
      hrec.middle_name = personAnna.middle_name ∧
      hrec.birth_date = personAnna.birth_date ∧
      hrec.gender = personAnna.gender ∧
      hrec.address = personAnna.address ∧
      hrec.phone = personAnna.phone ∧
      hrec.email = personAnna.email ∧
      hrec.valid_from = personAnna.created_at ∧
      hrec.valid_to = (create_person storeA snapPetrova none 2).2.created_at) :=
  (c2_history_on_retire storeA snapPetrova none 2).1 personAnna (by decide)

theorem prevOf_spec {s : Store} {d : Snapshot} {cs : Option Nat} {now : Nat} {pv : Person}
    (h : prevOf s d cs now = some pv) :
    (pv = newPerson s d cs now ∨ pv ∈ s.persons) ∧
    pv.group_id = chosenGroupId s d ∧ pv.is_current = true ∧
    pv.id ≠ s.next_person_id := by
  simp only [prevOf] at h
  have hmem := maxByKey_mem h
  obtain ⟨hin, hpred⟩ := List.mem_filter.mp hmem
  simp only [Bool.and_eq_true, beq_iff_eq, bne_iff_ne] at hpred
  exact ⟨List.mem_cons.mp hin, hpred.1.1, hpred.1.2, hpred.2⟩

theorem prevOf_mem_store {s : Store} {d : Snapshot} {cs : Option Nat} {now : Nat} {pv : Person}
    (h : prevOf s d cs now = some pv) :
    pv ∈ s.persons ∧ pv.group_id = chosenGroupId s d ∧ pv.is_current = true ∧
    pv.id ≠ s.next_person_id := by
  obtain ⟨hmem, hg, hc, hne⟩ := prevOf_spec h
  rcases hmem with rfl | hmem
  · exact absurd rfl hne
  · exact ⟨hmem, hg, hc, hne⟩

/-- Claim C8: with no matching group, `create_person` creates a fresh group,
inserts a single current row carrying the snapshot's attributes with
`is_current = true`, and leaves the history table untouched. -/
theorem c8_no_match_new_group (s : Store) (d : Snapshot) (cs : Option Nat) (now : Nat)
    (hg : ∀ p ∈ s.persons, p.group_id < s.next_group_id)
    (hnone : find_matching_group s.persons d = none) :
    (create_person s d cs now).1.groups = s.groups ++ [s.next_group_id] ∧
    (create_person s d cs now).1.persons = (create_person s d cs now).2 :: s.persons ∧
    (create_person s d cs now).1.history = s.history ∧
    (create_person s d cs now).2.group_id = s.next_group_id ∧
    (create_person s d cs now).2.is_current = true ∧
    (create_person s d cs now).2.last_name = d.last_name ∧
    (create_person s d cs now).2.first_name = d.first_name ∧
    (create_person s d cs now).2.middle_name = d.middle_name ∧
    (create_person s d cs now).2.birth_date = d.birth_date ∧
    (create_person s d cs now).2.gender = d.gender ∧
    (create_person s d cs now).2.address = d.address ∧
    (create_person s d cs now).2.phone = d.phone ∧
    (create_person s d cs now).2.email = d.email ∧
    (create_person s d cs now).2.created_at = now := by
  have hgid : chosenGroupId s d = s.next_group_id := by
    simp [chosenGroupId, hnone]
  have hprev : prevOf s d cs now = none := by
    simp only [prevOf]
    rw [maxByKey_eq_none, List.filter_eq_nil_iff]
    intro a ha
    rcases List.mem_cons.mp ha with rfl | ha2
    · simp
    · intro hpred
      simp only [Bool.and_eq_true, beq_iff_eq, bne_iff_ne] at hpred
      have h1 : a.group_id = s.next_group_id := by
        rw [hpred.1.1, newPerson, hgid]
      exact absurd h1 (Nat.ne_of_lt (hg a ha2))
  have hm : groupMatched s d = false := by
    simp [groupMatched, hnone]
  refine ⟨?_, ?_, create_person_history_none hprev, ?_,
    ?_, ?_, ?_, ?_, ?_, ?_, ?_, ?_, ?_, ?_⟩
  · rw [create_person_groups]
    simp [newGroups, hm]
  · rw [create_person_persons_none hprev, create_person_snd]
  · rw [create_person_snd]
    exact hgid
  all_goals rw [create_person_snd]; rfl

/-- Concrete instantiation of C8: the first Apply against the empty store
produces one group, one current record and zero history records. -/
theorem c8_no_match_new_group_witness :
    (create_person emptyStore snapAnna none 1).1.groups = [1] ∧
    (create_person emptyStore snapAnna none 1).1.persons =
      (create_person emptyStore snapAnna none 1).2 :: [] ∧
    (create_person emptyStore snapAnna none 1).1.history = [] ∧
    (create_person emptyStore snapAnna none 1).2.group_id = 1 ∧
    (create_person emptyStore snapAnna none 1).2.is_current = true ∧
    (create_person emptyStore snapAnna none 1).2.last_name = snapAnna.last_name ∧
    (create_person emptyStore snapAnna none 1).2.first_name = snapAnna.first_name ∧
    (create_person emptyStore snapAnna none 1).2.middle_name = snapAnna.middle_name ∧
    (create_person emptyStore snapAnna none 1).2.birth_date = snapAnna.birth_date ∧
    (create_person emptyStore snapAnna none 1).2.gender = snapAnna.gender ∧
    (create_person emptyStore snapAnna none 1).2.address = snapAnna.address ∧
    (create_person emptyStore snapAnna none 1).2.phone = snapAnna.phone ∧
    (create_person emptyStore snapAnna none 1).2.email = snapAnna.email ∧
    (create_person emptyStore snapAnna none 1).2.created_at = 1 :=
  c8_no_match_new_group emptyStore snapAnna none 1 (by decide) (by decide)

theorem noTwoCurrent_symm : Symmetric NoTwoCurrent :=
  fun _ _ h hc => h ⟨hc.2.1, hc.1, hc.2.2.symm⟩

theorem atMostOneCurrent_unique {l : List Person} (h : AtMostOneCurrent l)
    {p q : Person} (hp : p ∈ l) (hq : q ∈ l) (hpc : p.is_current = true)
    (hqc : q.is_current = true) (hg : p.group_id = q.group_id) : p = q := by
  by_contra hne
  exact (List.Pairwise.forall noTwoCurrent_symm h hp hq hne) ⟨hpc, hqc, hg⟩

theorem flip_id (pvid : Nat) (x : Person) :
    (if x.id == pvid then { x with is_current := false } else x).id = x.id := by
  split <;> rfl

theorem flip_group_id (pvid : Nat) (x : Person) :
    (if x.id == pvid then { x with is_current := false } else x).group_id = x.group_id := by
  split <;> rfl

theorem flip_is_current {pvid : Nat} {x : Person}
    (h : (if x.id == pvid then { x with is_current := false } else x).is_current = true) :
    x.is_current = true ∧ x.id ≠ pvid := by
  by_cases hx : x.id == pvid
  · rw [if_pos hx] at h
    exact absurd h (by simp)
  · rw [if_neg hx] at h
    exact ⟨h, by simpa using hx⟩

theorem create_person_preserves_ids (s : Store) (d : Snapshot) (cs : Option Nat) (now : Nat)
    (hid : ∀ p ∈ s.persons, p.id < s.next_person_id) :
    ∀ p ∈ (create_person s d cs now).1.persons,
      p.id < (create_person s d cs now).1.next_person_id := by
  rw [create_person_next_person_id]
  cases h : prevOf s d cs now with
  | none =>
    rw [create_person_persons_none h]
    intro p hp
    rcases List.mem_cons.mp hp with rfl | hp2
    · exact Nat.lt_succ_self _
    · exact Nat.lt_trans (hid p hp2) (Nat.lt_succ_self _)
  | some pv =>
    rw [create_person_persons_some h]
    intro p hp
    obtain ⟨q, hq, rfl⟩ := List.mem_map.mp hp
    rw [flip_id]
    rcases List.mem_cons.mp hq with rfl | hq2
    · exact Nat.lt_succ_self _
    · exact Nat.lt_trans (hid q hq2) (Nat.lt_succ_self _)

theorem create_person_preserves_current (s : Store) (d : Snapshot) (cs : Option Nat)
    (now : Nat) (hid : ∀ p ∈ s.persons, p.id < s.next_person_id)
    (hinv : AtMostOneCurrent s.persons) :
    AtMostOneCurrent (create_person s d cs now).1.persons := by
  cases hp : prevOf s d cs now with
  | none =>
    rw [create_person_persons_none hp]
    refine List.Pairwise.cons ?_ hinv
    intro q hq hc
    obtain ⟨hnewc, hqc, hgrp⟩ := hc
    have hfil : ((newPerson s d cs now :: s.persons).filter
        (fun p => p.group_id == (newPerson s d cs now).group_id && p.is_current
          && p.id != (newPerson s d cs now).id)) = [] := by
      have h2 := hp
      simp only [prevOf] at h2
      exact maxByKey_eq_none.mp h2
    have hqin : q ∈ ((newPerson s d cs now :: s.persons).filter
        (fun p => p.group_id == (newPerson s d cs now).group_id && p.is_current
          && p.id != (newPerson s d cs now).id)) := by
      refine List.mem_filter.mpr ⟨List.mem_cons_of_mem _ hq, ?_⟩
      have hqid : q.id ≠ (newPerson s d cs now).id := Nat.ne_of_lt (hid q hq)
      simp [hgrp.symm, hqc, hqid]
    rw [hfil] at hqin
    simp at hqin
  | some pv =>
    obtain ⟨hpvmem, hpvgrp, hpvcur, hpvid⟩ := prevOf_mem_store hp
    have hpvlt : pv.id < s.next_person_id := hid pv hpvmem
    rw [create_person_persons_some hp]
    refine List.pairwise_map.mpr ?_
    refine List.Pairwise.cons ?_ ?_
    · intro q hq hc
      obtain ⟨hnewc, hqc, hgrp⟩ := hc
      obtain ⟨hqcur, hqne⟩ := flip_is_current hqc
      rw [flip_group_id, flip_group_id] at hgrp
      have hqgrp : q.group_id = chosenGroupId s d := by
        rw [← hgrp]
        rfl
      have : q = pv :=
        atMostOneCurrent_unique hinv hq hpvmem hqcur hpvcur (hqgrp.trans hpvgrp.symm)
      exact hqne (by rw [this])
    · refine List.Pairwise.imp ?_ hinv
      intro a b hab hc
      obtain ⟨hac, hbc, hgab⟩ := hc
      rw [flip_group_id, flip_group_id] at hgab
      exact hab ⟨(flip_is_current hac).1, (flip_is_current hbc).1, hgab⟩

/-- Claim C1: after any sequence of completed Apply calls, at most one current
row per group has `is_current = true`; and when an Apply finds a previous
current row, the new table is the freshly inserted row plus the old rows with
exactly the found row's `is_current` flipped to false. -/
theorem c1_at_most_one_current :
    (∀ ops : List ApplyCall, AtMostOneCurrent (applyAll ops).persons) ∧
    (∀ (s : Store) (d : Snapshot) (cs : Option Nat) (now : Nat) (pv : Person),
      (∀ p ∈ s.persons, p.id < s.next_person_id) →
      prevOf s d cs now = some pv →
      (create_person s d cs now).1.persons =
        newPerson s d cs now ::
          s.persons.map
            (fun q => if q.id == pv.id then { q with is_current := false } else q)) := by
  constructor
  · have main : ∀ (ops : List ApplyCall) (s : Store),
        (∀ p ∈ s.persons, p.id < s.next_person_id) → AtMostOneCurrent s.persons →
        AtMostOneCurrent
          (ops.foldl (fun s op => (create_person s op.data op.change op.now).1) s).persons := by
      intro ops
      induction ops with
      | nil => exact fun s _ h2 => h2
      | cons op t ih =>
        intro s h1 h2
        exact ih _ (create_person_preserves_ids s op.data op.change op.now h1)
          (create_person_preserves_current s op.data op.change op.now h1 h2)
    intro ops
    exact main ops emptyStore (by simp [emptyStore]) (by simp [emptyStore])
  · intro s d cs now pv hid hpv
    obtain ⟨hpvmem, _, _, _⟩ := prevOf_mem_store hpv
    have hpvlt : pv.id < s.next_person_id := hid pv hpvmem
    rw [create_person_persons_some hpv, List.map_cons]
    have hfe : (if (newPerson s d cs now).id == pv.id then
        { newPerson s d cs now with is_current := false }
        else newPerson s d cs now) = newPerson s d cs now := by
      rw [if_neg]
      simp only [beq_iff_eq]
      exact fun he => absurd he.symm (Nat.ne_of_lt hpvlt)
    rw [hfe]

/-- Concrete instantiation of C1: the two-step Anna/Petrova scenario keeps the
invariant, and the second Apply flips exactly the Anna row. -/
theorem c1_at_most_one_current_witness :
    AtMostOneCurrent (applyAll [⟨snapAnna, none, 1⟩, ⟨snapPetrova, none, 2⟩]).persons ∧
    (create_person storeA snapPetrova none 2).1.persons =
      newPerson storeA snapPetrova none 2 ::
        storeA.persons.map
          (fun q => if q.id == personAnna.id then { q with is_current := false } else q) :=
  ⟨c1_at_most_one_current.1 [⟨snapAnna, none, 1⟩, ⟨snapPetrova, none, 2⟩],
   c1_at_most_one_current.2 storeA snapPetrova none 2 personAnna (by decide) (by decide)⟩

/-- Claim C5: `get_person_as_of` answers with the group's current row when one
exists with `created_at ≤ timestamp`; otherwise with the history row whose
interval `[valid_from, valid_to)` contains the timestamp, taking the largest
`valid_from`; and with `none` when neither exists. -/
theorem c5_state_at :
    (∀ (s : Store) (g ts : Nat) (p : Person), AtMostOneCurrent s.persons →
      p ∈ s.persons → p.group_id = g → p.is_current = true → p.created_at ≤ ts →
      get_person_as_of s g ts = some (personView p)) ∧
    (∀ (s : Store) (g ts : Nat) (h : PersonHistory),
      (∀ p ∈ s.persons, ¬(p.group_id = g ∧ p.is_current = true ∧ p.created_at ≤ ts)) →
      h ∈ s.history → h.group_id = g → h.valid_from ≤ ts → ts < h.valid_to →
      (∀ h2 ∈ s.history, h2.group_id = g → h2.valid_from ≤ ts → ts < h2.valid_to →
        h2 ≠ h → h2.valid_from < h.valid_from) →
      get_person_as_of s g ts = some (historyView h)) ∧
    (∀ (s : Store) (g ts : Nat),
      (∀ p ∈ s.persons, ¬(p.group_id = g ∧ p.is_current = true ∧ p.created_at ≤ ts)) →
      (∀ h2 ∈ s.history, ¬(h2.group_id = g ∧ h2.valid_from ≤ ts ∧ ts < h2.valid_to)) →
      get_person_as_of s g ts = none) := by
  have hcurnil : ∀ (s : Store) (g ts : Nat),
      (∀ p ∈ s.persons, ¬(p.group_id = g ∧ p.is_current = true ∧ p.created_at ≤ ts)) →
      (s.persons.filter
        (fun p => p.group_id == g && p.is_current && decide (p.created_at ≤ ts))) = [] := by
    intro s g ts hnone
    rw [List.filter_eq_nil_iff]
    intro p hp hpred
    simp only [Bool.and_eq_true, beq_iff_eq, decide_eq_true_eq] at hpred
    exact hnone p hp ⟨hpred.1.1, hpred.1.2, hpred.2⟩
  refine ⟨?_, ?_, ?_⟩
  · intro s g ts p hinv hmem hg hc hts
    have hfil : p ∈ s.persons.filter
        (fun q => q.group_id == g && q.is_current && decide (q.created_at ≤ ts)) := by
      refine List.mem_filter.mpr ⟨hmem, ?_⟩
      simp [hg, hc, hts]
    have hall : ∀ y ∈ s.persons.filter
        (fun q => q.group_id == g && q.is_current && decide (q.created_at ≤ ts)), y = p := by
      intro y hy
      obtain ⟨hymem, hypred⟩ := List.mem_filter.mp hy
      simp only [Bool.and_eq_true, beq_iff_eq, decide_eq_true_eq] at hypred
      exact atMostOneCurrent_unique hinv hymem hmem hypred.1.2 hc (hypred.1.1.trans hg.symm)
    have hmax := @maxByKey_eq_of_all_eq _ Person.created_at _ _ hfil hall
    simp [get_person_as_of, hmax]
  · intro s g ts h hnocur hmem hg hfrom hto hlatest
    have hcur := hcurnil s g ts hnocur
    have hfil : h ∈ s.history.filter
        (fun x => x.group_id == g && decide (x.valid_from ≤ ts) && decide (ts < x.valid_to)) := by
      refine List.mem_filter.mpr ⟨hmem, ?_⟩
      simp [hg, hfrom, hto]
    have hstrict : ∀ y ∈ s.history.filter
        (fun x => x.group_id == g && decide (x.valid_from ≤ ts) && decide (ts < x.valid_to)),
        y ≠ h → y.valid_from < h.valid_from := by
      intro y hy hyne
      obtain ⟨hymem, hypred⟩ := List.mem_filter.mp hy
      simp only [Bool.and_eq_true, beq_iff_eq, decide_eq_true_eq] at hypred
      exact hlatest y hymem hypred.1.1 hypred.1.2 hypred.2 hyne
    have hmax := @maxByKey_eq_of_strict_max _ PersonHistory.valid_from _ _ hfil hstrict
    simp [get_person_as_of, hcur, hmax, maxByKey]
  · intro s g ts hnocur hnohist
    have hcur := hcurnil s g ts hnocur
    have hhist : (s.history.filter
        (fun x => x.group_id == g && decide (x.valid_from ≤ ts) && decide (ts < x.valid_to))) = [] := by
      rw [List.filter_eq_nil_iff]
      intro x hx hpred
      simp only [Bool.and_eq_true, beq_iff_eq, decide_eq_true_eq] at hpred
      exact hnohist x hx ⟨hpred.1.1, hpred.1.2, hpred.2⟩
    simp [get_person_as_of, hcur, hhist, maxByKey]

/-- Concrete instantiation of C5 on the two-step scenario store: a timestamp
in the current era, one inside the retired interval, and one before the first
record. -/
theorem c5_state_at_witness :
    get_person_as_of storeB 1 5 = some (personView personPetrova) ∧
    get_person_as_of storeB 1 1 = some (historyView histAnna) ∧
    get_person_as_of storeB 1 0 = none :=
  ⟨c5_state_at.1 storeB 1 5 personPetrova (by decide) (by decide) (by decide)
      (by decide) (by decide),
   c5_state_at.2.1 storeB 1 1 histAnna (by decide) (by decide) (by decide)
      (by decide) (by decide) (by decide),
   c5_state_at.2.2 storeB 1 0 (by decide) (by decide)⟩
